import Mathlib

/-!
Verification of the multi-threaded file downloader (`downloader.py`).

The development shallowly embeds the three functions of the source file:

* `download_chunk` (source lines 19–46): issues one range-scoped GET and
  streams the body into the scratch file `f"{save_path}.part{thread_index}"`.
  The HTTP transport is modelled by an `Option HttpResponse` supplied by the
  environment (`none` models a transport exception raised by `requests.get`);
  the filesystem is modelled by an explicit association list `Disk`.
* `merge_files` (source lines 48–61): concatenates the temporary files, in the
  order of the `temp_files` list, into `save_path`, removing each temporary
  file; a missing temporary file models the `FileNotFoundError` that `open`
  would raise and makes the merge fail.
* `download_file_in_chunks` (source lines 63–108): validates `num_threads`,
  performs the HEAD request, reads `Content-Length` (a missing header raises
  `KeyError`), computes `chunk_size` and `ranges`, runs every chunk task,
  collects the results in completion order (`concurrent.futures.as_completed`),
  and merges.  The nondeterministic completion order of the thread pool is an
  explicit parameter of the environment (`completionOrder`); the first
  `future.result()` call that hits a failed chunk re-raises its exception.
  All submitted tasks run to completion before the executor shuts down, so
  every successful chunk's scratch file is written even when another chunk
  fails; the model applies all scratch-file writes before collecting results.

Python integers are unbounded, so `Nat`/`Int` model them exactly; byte-range
endpoints use `Int` because `(i + 1) * chunk_size - 1` is `-1` when
`chunk_size` is `0`.
-/

namespace MTFD

/-- Source line 83: `chunk_size = total_size // num_threads` (Python `//` on
nonnegative integers is `Nat` division). -/
def chunk_size (total_size num_threads : Nat) : Nat :=
  total_size / num_threads

/-- Source line 84:
`ranges = [(i * chunk_size, min((i + 1) * chunk_size - 1, total_size - 1)) for i in range(num_threads)]`. -/
def ranges (total_size num_threads : Nat) : List (Int × Int) :=
  (List.range num_threads).map fun (i : Nat) =>
    ((i : Int) * (chunk_size total_size num_threads : Int),
      min (((i : Int) + 1) * (chunk_size total_size num_threads : Int) - 1)
        ((total_size : Int) - 1))

/-- A byte position `b` is covered by the range list `rs` when some inclusive
range `[start, end]` of `rs` contains it. -/
def covered (rs : List (Int × Int)) (b : Int) : Prop :=
  ∃ r ∈ rs, r.1 ≤ b ∧ b ≤ r.2

instance (rs : List (Int × Int)) (b : Int) : Decidable (covered rs b) := by
  unfold covered; infer_instance

/-- An HTTP response delivered for a ranged GET: a status code and the body as
a list of bytes (`response.iter_content` concatenated). -/
structure HttpResponse where
  status : Nat
  body : List Nat
deriving DecidableEq

/-- The external world of one run: the `Content-Length` header of the HEAD
response (`none` models a missing header), the response each chunk's GET
receives (`none` models a transport exception raised by `requests.get`), and
the order in which `concurrent.futures.as_completed` yields the futures. -/
structure Env where
  contentLength : Option Nat
  chunkResp : Nat → Option HttpResponse
  completionOrder : List Nat

/-- The filesystem, as an association list from path to file contents; the
first entry for a path is its current contents. -/
def Disk := List (String × List Nat)

/-- Create or truncate the file at `p` (Python `open(p, 'wb')`) and write `c`. -/
def diskWrite (d : Disk) (p : String) (c : List Nat) : Disk :=
  (p, c) :: List.filter (fun e => ¬ e.1 = p) d

/-- Delete the file at `p` (Python `os.remove`). -/
def diskRemove (d : Disk) (p : String) : Disk :=
  List.filter (fun e => ¬ e.1 = p) d

/-- Read the file at `p`; `none` when no such file exists. -/
def diskRead (d : Disk) (p : String) : Option (List Nat) :=
  (List.find? (fun e => e.1 = p) d).map (·.2)

/-- A network operation, recorded in the trace of a run. -/
inductive NetOp
  | head (url : String)
  | get (url : String) (start_byte end_byte : Int)
deriving DecidableEq

/-- Source line 39: `temp_file_path = f"{save_path}.part{thread_index}"`. -/
def temp_file_path (save_path : String) (thread_index : Nat) : String :=
  save_path ++ ".part" ++ toString thread_index

/-- Source lines 19–46, `download_chunk(url, save_path, start_byte, end_byte,
thread_index, thread_progress_bars)` (the progress bars are display-only and
are not modelled).  It issues one GET with header `Range: bytes=start-end`;
on a transport exception nothing is written and the exception propagates
(`Except.error ()`); otherwise the whole body — with no status-code or length
check — is written to `temp_file_path` and that path is returned.  Result:
(network trace, disk after the call, outcome). -/
def download_chunk (url save_path : String) (start_byte end_byte : Int)
    (thread_index : Nat) (resp : Option HttpResponse) (d : Disk) :
    List NetOp × Disk × Except Unit String :=
  match resp with
  | none => ([NetOp.get url start_byte end_byte], d, Except.error ())
  | some r =>
      ([NetOp.get url start_byte end_byte],
        diskWrite d (temp_file_path save_path thread_index) r.body,
        Except.ok (temp_file_path save_path thread_index))

/-- The executor runs every submitted chunk task (source lines 93–97); each
task is `download_chunk` on its range, indexed by its position in `ranges`
(Python `enumerate(ranges)`, rendered as a recursion carrying the next
index).  Scratch files land at pairwise distinct paths, so the order in
which the threads interleave does not affect the resulting disk. -/
def runChunksFrom (env : Env) (url save_path : String) :
    Nat → List (Int × Int) → Disk → Disk
  | _, [], d => d
  | i, r :: rest, d =>
      runChunksFrom env url save_path (i + 1) rest
        (download_chunk url save_path r.1 r.2 i (env.chunkResp i) d).2.1

/-- The disk after all chunk tasks of the pool have run. -/
def runChunks (env : Env) (url save_path : String) (rngs : List (Int × Int))
    (d : Disk) : Disk :=
  runChunksFrom env url save_path 0 rngs d

/-- Source lines 100–101: `for future in as_completed(futures):
temp_files.append(future.result())`.  Walks the completion order; the first
future whose task raised re-raises its exception (`Except.error index`);
otherwise the scratch paths accumulate in completion order. -/
def collectLoop (save_path : String) (chunkResp : Nat → Option HttpResponse) :
    List Nat → List String → Except Nat (List String)
  | [], acc => Except.ok acc
  | i :: rest, acc =>
    match chunkResp i with
    | none => Except.error i
    | some _ => collectLoop save_path chunkResp rest (acc ++ [temp_file_path save_path i])

/-- Helper for `merge_files`: read and remove each temporary file in list
order, accumulating the concatenated bytes; a missing file makes the merge
fail (Python `open(temp_file, 'rb')` raising `FileNotFoundError`). -/
def mergeGo (d : Disk) (acc : List Nat) : List String → Option (Disk × List Nat)
  | [] => some (d, acc)
  | tf :: rest =>
    match diskRead d tf with
    | none => none
    | some c => mergeGo (diskRemove d tf) (acc ++ c) rest

/-- Source lines 48–61, `merge_files(temp_files, save_path)`: concatenate the
temporary files **in the order of the `temp_files` list** into `save_path`,
removing each temporary file after it is copied. -/
def merge_files (temp_files : List String) (save_path : String) (d : Disk) :
    Option Disk :=
  (mergeGo d [] temp_files).map fun dc => diskWrite dc.1 save_path dc.2

/-- The exceptions `download_file_in_chunks` can raise: the explicit
`ValueError` of line 76, the `KeyError` of line 80 when `Content-Length` is
absent, a chunk task's exception re-raised by `future.result()` (line 101),
and an I/O error during the merge. -/
inductive DownloadError
  | valueError
  | keyError
  | chunkError (index : Nat)
  | mergeError
deriving DecidableEq

/-- Source lines 63–108, `download_file_in_chunks(url, save_path,
num_threads)`.  Returns (outcome, network trace, final disk).  Steps, in
source order: the `num_threads <= 0` guard (line 75, before any request);
the HEAD request and `Content-Length` lookup (lines 79–80); `chunk_size` and
`ranges` (lines 83–84); one `download_chunk` task per range (lines 93–97),
all of which run; collection in completion order (lines 100–101), whose
first failure propagates after the pool drains, leaving the scratch files of
the successful chunks on disk; and `merge_files` on the collected list
(line 108). -/
def download_file_in_chunks (env : Env) (url save_path : String)
    (num_threads : Int) (d : Disk) :
    Except DownloadError Unit × List NetOp × Disk :=
  if num_threads ≤ 0 then
    (Except.error DownloadError.valueError, [], d)
  else
    match env.contentLength with
    | none => (Except.error DownloadError.keyError, [NetOp.head url], d)
    | some total_size =>
      let rngs := ranges total_size num_threads.toNat
      let trace := NetOp.head url :: rngs.map fun r => NetOp.get url r.1 r.2
      let d1 := runChunks env url save_path rngs d
      match collectLoop save_path env.chunkResp env.completionOrder [] with
      | Except.error i => (Except.error (DownloadError.chunkError i), trace, d1)
      | Except.ok temp_files =>
        match merge_files temp_files save_path d1 with
        | none => (Except.error DownloadError.mergeError, trace, d1)
        | some d2 => (Except.ok (), trace, d2)

/-- The coverage the planned ranges actually achieve: `num_threads` ranges,
the first starting at byte `0`, each later range starting right after its
predecessor ends, jointly covering exactly the bytes
`[0, num_threads * (total_size / num_threads) - 1]`; every byte at position
`num_threads * (total_size / num_threads)` or later — in particular the last
`total_size % num_threads` bytes of the file — lies in no range, and that
tail has size exactly `total_size % num_threads`. -/
def rangesCoverage (total n : Nat) : Prop :=
  (ranges total n).length = n ∧
  ((ranges total n)[0]?).map Prod.fst = some 0 ∧
  (∀ i, i + 1 < n → ∃ r r', (ranges total n)[i]? = some r ∧
    (ranges total n)[i + 1]? = some r' ∧ r'.1 = r.2 + 1) ∧
  (∀ b : Int, covered (ranges total n) b ↔
    0 ≤ b ∧ b ≤ (n : Int) * (chunk_size total n : Int) - 1) ∧
  (∀ b : Int, (n : Int) * (chunk_size total n : Int) ≤ b →
    ¬ covered (ranges total n) b) ∧
  ((total % n : Nat) : Int)
    = (total : Int) - (n : Int) * (chunk_size total n : Int)

/-- A two-chunk job over a 2-byte file: chunk 0's GET returns body `[10]`,
chunk 1's GET returns body `[20]`. -/
def respTwo : Nat → Option HttpResponse := fun i =>
  if i = 0 then some (HttpResponse.mk 206 [10]) else some (HttpResponse.mk 206 [20])

/-- The two-chunk job when chunk 1's future completes first. -/
def envCompletionRev : Env := Env.mk (some 2) respTwo [1, 0]

/-- The two-chunk job when chunk 0's future completes first. -/
def envCompletionFwd : Env := Env.mk (some 2) respTwo [0, 1]

/-- A two-chunk job over a 2-byte file where chunk 0 succeeds with body `[10]`
and chunk 1's GET raises a transport error. -/
def envChunkOneFails : Env :=
  Env.mk (some 2)
    (fun i => if i = 0 then some (HttpResponse.mk 206 [10]) else none) [0, 1]

/-- A ten-chunk job over a 5-byte file (more chunks than bytes); every GET
succeeds with an empty body. -/
def envTenChunks : Env :=
  Env.mk (some 5) (fun _ => some (HttpResponse.mk 206 [])) (List.range 10)

/-- An environment whose HEAD response has no `Content-Length` header. -/
def envNone : Env := Env.mk none (fun _ => none) []

/-! Helper lemmas about decimal string representations of naturals, used to
show that scratch-file paths are pairwise distinct. -/

theorem toDigitsCore_acc (b : Nat) :
    ∀ (f n : Nat) (ds : List Char),
      Nat.toDigitsCore b f n ds = Nat.toDigitsCore b f n [] ++ ds := by
  intro f
  induction f with
  | zero => intro n ds; simp [Nat.toDigitsCore]
  | succ g ih =>
    intro n ds
    simp only [Nat.toDigitsCore]
    by_cases h : n / b = 0
    · simp [h]
    · simp only [h, if_false]
      rw [ih (n / b) (Nat.digitChar (n % b) :: ds),
        ih (n / b) [Nat.digitChar (n % b)], List.append_assoc]
      rfl

theorem toDigitsCore_fuel (b : Nat) (hb : 2 ≤ b) :
    ∀ (f n : Nat) (ds : List Char), n < f →
      Nat.toDigitsCore b f n ds = Nat.toDigitsCore b (n + 1) n ds := by
  intro f
  induction f using Nat.strong_induction_on with
  | _ f ih =>
    intro n ds hn
    cases f with
    | zero => omega
    | succ g =>
      simp only [Nat.toDigitsCore]
      by_cases h : n / b = 0
      · simp [h]
      · simp only [h, if_false]
        have hn0 : 0 < n := by
          rcases Nat.eq_zero_or_pos n with h0 | h0
          · exfalso; apply h; rw [h0]; simp
          · exact h0
        have hnb : n / b < n := Nat.div_lt_self hn0 (by omega)
        have e1 : Nat.toDigitsCore b g (n / b) (Nat.digitChar (n % b) :: ds)
            = Nat.toDigitsCore b (n / b + 1) (n / b) (Nat.digitChar (n % b) :: ds) :=
          ih g (by omega) (n / b) _ (by omega)
        have e2 : Nat.toDigitsCore b n (n / b) (Nat.digitChar (n % b) :: ds)
            = Nat.toDigitsCore b (n / b + 1) (n / b) (Nat.digitChar (n % b) :: ds) :=
          ih n (by omega) (n / b) _ (by omega)
        rw [e1, e2]

theorem toDigits_step (b n : Nat) (hb : 2 ≤ b) :
    Nat.toDigits b n =
      if n / b = 0 then [Nat.digitChar (n % b)]
      else Nat.toDigits b (n / b) ++ [Nat.digitChar (n % b)] := by
  by_cases h : n / b = 0
  · simp only [h, if_true, Nat.toDigits, Nat.toDigitsCore]
  · rw [if_neg h]
    simp only [Nat.toDigits, Nat.toDigitsCore]
    rw [if_neg h]
    have hn0 : 0 < n := by
      rcases Nat.eq_zero_or_pos n with h0 | h0
      · exfalso; apply h; rw [h0]; simp
      · exact h0
    have hnb : n / b < n := Nat.div_lt_self hn0 (by omega)
    rw [toDigitsCore_fuel b hb n (n / b) _ (by omega)]
    rw [toDigitsCore_acc b (n / b + 1) (n / b) [Nat.digitChar (n % b)]]
    simp only [Nat.toDigitsCore]

theorem toDigits_ne_nil (b n : Nat) (hb : 2 ≤ b) : Nat.toDigits b n ≠ [] := by
  rw [toDigits_step b n hb]
  by_cases h : n / b = 0 <;> simp [h]

theorem digitChar_inj_lt_ten :
    ∀ a < 10, ∀ c < 10, Nat.digitChar a = Nat.digitChar c → a = c := by decide

theorem toDigits_ten_inj :
    ∀ n m : Nat, Nat.toDigits 10 n = Nat.toDigits 10 m → n = m := by
  intro n
  induction n using Nat.strong_induction_on with
  | _ n ih =>
    intro m h
    rw [toDigits_step 10 n (by omega), toDigits_step 10 m (by omega)] at h
    by_cases hn : n / 10 = 0 <;> by_cases hm : m / 10 = 0
    · simp only [hn, hm, if_true] at h
      have h1 : n % 10 = m % 10 :=
        digitChar_inj_lt_ten (n % 10) (by omega) (m % 10) (by omega)
          (List.singleton_injective h)
      omega
    · exfalso
      simp only [hn, hm, if_true, if_false] at h
      have hlen := congrArg List.length h
      simp only [List.length_singleton, List.length_append] at hlen
      have h2 := toDigits_ne_nil 10 (m / 10) (by omega)
      have h3 : 0 < (Nat.toDigits 10 (m / 10)).length :=
        List.length_pos.mpr h2
      omega
    · exfalso
      simp only [hn, hm, if_true, if_false] at h
      have hlen := congrArg List.length h
      simp only [List.length_singleton, List.length_append] at hlen
      have h2 := toDigits_ne_nil 10 (n / 10) (by omega)
      have h3 : 0 < (Nat.toDigits 10 (n / 10)).length :=
        List.length_pos.mpr h2
      omega
    · simp only [hn, hm, if_false] at h
      have hsp := List.append_inj' h (by simp)
      have hdiv : n / 10 = m / 10 := ih (n / 10)
        (Nat.div_lt_self (by omega) (by omega)) (m / 10) hsp.1
      have hmod : n % 10 = m % 10 :=
        digitChar_inj_lt_ten (n % 10) (by omega) (m % 10) (by omega)
          (List.singleton_injective hsp.2)
      omega

theorem Nat_repr_inj (n m : Nat) (h : Nat.repr n = Nat.repr m) : n = m := by
  apply toDigits_ten_inj
  have h2 := congrArg String.data h
  simpa [Nat.repr, List.asString] using h2

/-! Scratch-path lemmas. -/

theorem temp_file_path_inj (s : String) (i j : Nat)
    (h : temp_file_path s i = temp_file_path s j) : i = j := by
  have hts : ∀ k : Nat, toString k = Nat.repr k := fun _ => rfl
  unfold temp_file_path at h
  rw [hts i, hts j] at h
  have h2 := congrArg String.data h
  simp only [String.data_append] at h2
  have h3 : (Nat.repr i).data = (Nat.repr j).data := by
    exact List.append_cancel_left h2
  exact Nat_repr_inj i j (String.ext h3)

theorem temp_file_path_ne_save (s : String) (i : Nat) : temp_file_path s i ≠ s := by
  intro h
  have h2 := congrArg String.length h
  rw [temp_file_path, String.length_append, String.length_append] at h2
  have h5 : (".part" : String).length = 5 := rfl
  rw [h5] at h2
  omega

/-! Disk lemmas. -/

theorem diskRead_write_self (d : Disk) (p : String) (c : List Nat) :
    diskRead (diskWrite d p c) p = some c := by
  simp [diskRead, diskWrite, List.find?]

theorem find?_filter_ne (p q : String) (h : q ≠ p) (d : Disk) :
    List.find? (fun e => e.1 = q) (List.filter (fun e => ¬ e.1 = p) d)
      = List.find? (fun e => e.1 = q) d := by
  induction d with
  | nil => rfl
  | cons e rest ih =>
    simp only [List.filter_cons]
    by_cases he : e.1 = p
    · rw [if_neg (by simp [he])]
      rw [List.find?_cons_of_neg _ (by simp [he]; exact Ne.symm h)]
      exact ih
    · rw [if_pos (by simp [he])]
      by_cases hq : e.1 = q
      · rw [List.find?_cons_of_pos _ (by simp [hq]),
          List.find?_cons_of_pos _ (by simp [hq])]
      · rw [List.find?_cons_of_neg _ (by simp [hq]),
          List.find?_cons_of_neg _ (by simp [hq])]
        exact ih

theorem diskRead_write_ne (d : Disk) (p q : String) (c : List Nat) (h : q ≠ p) :
    diskRead (diskWrite d p c) q = diskRead d q := by
  unfold diskRead diskWrite
  rw [List.find?_cons_of_neg _ (by simp; exact Ne.symm h), find?_filter_ne p q h d]

/-! Lemmas about the pool of chunk tasks (`runChunksFrom`). -/

theorem runChunksFrom_read_ne (env : Env) (url s q : String) :
    ∀ (rngs : List (Int × Int)) (k : Nat) (d : Disk),
      (∀ i, k ≤ i → i < k + rngs.length → temp_file_path s i ≠ q) →
      diskRead (runChunksFrom env url s k rngs d) q = diskRead d q := by
  intro rngs
  induction rngs with
  | nil => intro k d _; rfl
  | cons r rest ih =>
    intro k d hq
    rw [runChunksFrom]
    rw [ih (k + 1) _
      (fun i h1 h2 => hq i (by omega) (by simp only [List.length_cons]; omega))]
    cases hres : env.chunkResp k with
    | none => rfl
    | some resp =>
      simp only [download_chunk, hres]
      exact diskRead_write_ne d (temp_file_path s k) q resp.body
        (Ne.symm (hq k (by omega) (by simp only [List.length_cons]; omega)))

theorem runChunksFrom_read_success (env : Env) (url s : String) :
    ∀ (rngs : List (Int × Int)) (k : Nat) (d : Disk) (j : Nat) (r : HttpResponse),
      k ≤ j → j < k + rngs.length → env.chunkResp j = some r →
      diskRead (runChunksFrom env url s k rngs d) (temp_file_path s j)
        = some r.body := by
  intro rngs
  induction rngs with
  | nil =>
    intro k d j r h1 h2 _
    exfalso
    simp only [List.length_nil] at h2
    omega
  | cons rg rest ih =>
    intro k d j r h1 h2 hj
    rw [runChunksFrom]
    by_cases hjk : j = k
    · subst hjk
      simp only [download_chunk, hj]
      rw [runChunksFrom_read_ne env url s _ rest (j + 1) _
        (fun i hi1 hi2 hc => by
          have := temp_file_path_inj s i j hc
          omega)]
      exact diskRead_write_self d (temp_file_path s j) r.body
    · exact ih (k + 1) _ j r (by omega)
        (by simp only [List.length_cons] at h2; omega) hj

/-! Lemmas about result collection (`collectLoop`). -/

theorem collectLoop_all_success (s : String) (f : Nat → Option HttpResponse) :
    ∀ (order : List Nat) (acc : List String),
      (∀ i ∈ order, f i ≠ none) →
      collectLoop s f order acc
        = Except.ok (acc ++ order.map (temp_file_path s)) := by
  intro order
  induction order with
  | nil => intro acc _; simp [collectLoop]
  | cons i rest ih =>
    intro acc h
    rw [collectLoop]
    cases hfi : f i with
    | none => exact absurd hfi (h i (by simp))
    | some r =>
      rw [ih _ (fun j hj => h j (by simp [hj]))]
      simp

theorem collectLoop_first_failure (s : String) (f : Nat → Option HttpResponse) :
    ∀ (order : List Nat) (acc : List String),
      (∃ i ∈ order, f i = none) →
      ∃ j ∈ order, collectLoop s f order acc = Except.error j ∧ f j = none := by
  intro order
  induction order with
  | nil => intro acc h; simp at h
  | cons i rest ih =>
    intro acc h
    rw [collectLoop]
    cases hfi : f i with
    | none => exact ⟨i, by simp, rfl, hfi⟩
    | some r =>
      have hrest : ∃ j ∈ rest, f j = none := by
        rcases h with ⟨j, hj, hjn⟩
        rcases List.mem_cons.mp hj with rfl | hjr
        · rw [hfi] at hjn; cases hjn
        · exact ⟨j, hjr, hjn⟩
      rcases ih (acc ++ [temp_file_path s i]) hrest with ⟨j, hj1, hj2, hj3⟩
      exact ⟨j, by simp [hj1], hj2, hj3⟩

/-! Lemmas about the planned ranges. -/

theorem ranges_length (total n : Nat) : (ranges total n).length = n := by
  rw [ranges, List.length_map, List.length_range]

theorem chunk_mul_le (total n : Nat) : n * chunk_size total n ≤ total := by
  rw [chunk_size, Nat.mul_comm]
  exact Nat.div_mul_le_self total n

theorem ranges_getElem (total n i : Nat) (h : i < n) :
    (ranges total n)[i]? = some
      ((i : Int) * (chunk_size total n : Int),
        ((i : Int) + 1) * (chunk_size total n : Int) - 1) := by
  have hle : (i + 1) * chunk_size total n ≤ total := by
    calc (i + 1) * chunk_size total n
        ≤ n * chunk_size total n := Nat.mul_le_mul_right _ (by omega)
      _ ≤ total := chunk_mul_le total n
  have hmin : ((i : Int) + 1) * (chunk_size total n : Int) - 1 ≤ (total : Int) - 1 := by
    have hc : (((i + 1) * chunk_size total n : Nat) : Int) ≤ (total : Int) := by
      exact_mod_cast hle
    push_cast at hc
    linarith
  rw [ranges, List.getElem?_map, List.getElem?_range h]
  simp [min_eq_left hmin]

theorem mem_ranges_iff (total n : Nat) (r : Int × Int) :
    r ∈ ranges total n ↔ ∃ i < n,
      r = ((i : Int) * (chunk_size total n : Int),
        min (((i : Int) + 1) * (chunk_size total n : Int) - 1)
          ((total : Int) - 1)) := by
  rw [ranges]
  constructor
  · intro hr
    rcases List.mem_map.mp hr with ⟨i, hi, he⟩
    exact ⟨i, List.mem_range.mp hi, he.symm⟩
  · rintro ⟨i, hi, hre⟩
    exact List.mem_map.mpr ⟨i, List.mem_range.mpr hi, hre.symm⟩

theorem covered_ranges_iff (total n : Nat) (hcs : 1 ≤ chunk_size total n)
    (b : Int) :
    covered (ranges total n) b ↔
      0 ≤ b ∧ b ≤ (n : Int) * (chunk_size total n : Int) - 1 := by
  constructor
  · rintro ⟨r, hr, hb1, hb2⟩
    rw [mem_ranges_iff] at hr
    obtain ⟨i, hi, hre⟩ := hr
    subst hre
    simp only at hb1 hb2
    have h0 : (0 : Int) ≤ (i : Int) * (chunk_size total n : Int) :=
      mul_nonneg (by positivity) (by positivity)
    have hA : b ≤ ((i : Int) + 1) * (chunk_size total n : Int) - 1 :=
      le_trans hb2 (min_le_left _ _)
    have hin : ((i : Int) + 1) ≤ (n : Int) := by exact_mod_cast hi
    have hup : ((i : Int) + 1) * (chunk_size total n : Int)
        ≤ (n : Int) * (chunk_size total n : Int) :=
      mul_le_mul_of_nonneg_right hin (by positivity)
    constructor
    · linarith
    · linarith
  · rintro ⟨hb0, hbu⟩
    have hn0 : 0 < n := by
      by_contra hn
      have : n = 0 := by omega
      subst this
      simp [chunk_size] at hcs
    set cs := chunk_size total n with hcsdef
    have hbk : ((b.toNat : Int)) = b := Int.toNat_of_nonneg hb0
    have hklt : b.toNat < n * cs := by
      have : (b.toNat : Int) < ((n * cs : Nat) : Int) := by
        push_cast
        linarith [hbk]
      exact_mod_cast this
    have hi : b.toNat / cs < n := (Nat.div_lt_iff_lt_mul (by omega)).mpr hklt
    refine ⟨_, (mem_ranges_iff total n _).mpr ⟨b.toNat / cs, hi, rfl⟩, ?_, ?_⟩
    · simp only
      have h1 : (b.toNat / cs) * cs ≤ b.toNat := Nat.div_mul_le_self _ _
      have h2 : ((b.toNat / cs : Nat) : Int) * (cs : Int) ≤ (b.toNat : Int) := by
        exact_mod_cast h1
      rw [hbk] at h2
      exact h2
    · simp only
      apply le_min
      · have h1 : b.toNat + 1 ≤ (b.toNat / cs + 1) * cs := by
          have hdm := Nat.div_add_mod b.toNat cs
          have hm : b.toNat % cs < cs := Nat.mod_lt _ (by omega)
          nlinarith [hdm, hm]
        have h2 : (b.toNat : Int) + 1
            ≤ (((b.toNat / cs : Nat) : Int) + 1) * (cs : Int) := by
          exact_mod_cast h1
        rw [hbk] at h2
        linarith
      · have h1 : b.toNat < total := lt_of_lt_of_le hklt (chunk_mul_le total n)
        have h2 : (b.toNat : Int) < (total : Int) := by exact_mod_cast h1
        rw [hbk] at h2
        linarith

theorem ranges_degenerate (total n : Nat) (h : total < n) :
    ranges total n = List.replicate n ((0 : Int), (-1 : Int)) := by
  have hcs : chunk_size total n = 0 := Nat.div_eq_of_lt h
  have hmin : (-1 : Int) ≤ (total : Int) - 1 := by
    have h0 : (0 : Int) ≤ (total : Int) := by positivity
    linarith
  have hrep : ranges total n
      = List.replicate (ranges total n).length ((0 : Int), (-1 : Int)) := by
    apply List.eq_replicate_of_mem
    intro r hr
    rw [mem_ranges_iff] at hr
    obtain ⟨i, hi, hre⟩ := hr
    rw [hcs] at hre
    subst hre
    simp [min_eq_left hmin]
  rw [hrep, ranges_length]

/-! The claims. -/

/-- Claim C1: for `total_size ≥ 1` and `1 ≤ num_chunks ≤ total_size`, the
planned ranges should have exactly `num_chunks` entries whose union is
exactly `[0, total_size - 1]` — the code violates the union part: at
`total_size = 10`, `num_chunks = 3` it plans `[(0,2),(3,5),(6,8)]`; the list
has 3 entries and byte 8 is covered, but byte 9 is covered by no range. -/
theorem claim_C1_coverage_fails_at_10_3 :
    ranges 10 3 = [((0 : Int), (2 : Int)), (3, 5), (6, 8)] ∧
    (ranges 10 3).length = 3 ∧
    covered (ranges 10 3) 8 ∧
    ¬ covered (ranges 10 3) 9 := by decide

/-- Claim C2: the last planned range should end at `total_size - 1`, with
`plan(10, 3) = [(0,2),(3,5),(6,9)]` — the code violates this: the `min`
clamp never raises the final endpoint, so the last range of the plan for
`(10, 3)` ends at `8`, not `9`, and the plan is not the claimed list. -/
theorem claim_C2_last_range_not_absorbing :
    (ranges 10 3).getLast? = some ((6 : Int), (8 : Int)) ∧
    ranges 10 3 ≠ [((0 : Int), (2 : Int)), (3, 5), (6, 9)] := by decide

/-- Claim C3: the final output bytes should be identical for every chunk
completion order — the code violates this: with two chunks whose bodies are
`[10]` and `[20]`, completion order `[1, 0]` makes the merged output
`[20, 10]` while completion order `[0, 1]` makes it `[10, 20]`, because
`temp_files` is built in `as_completed` (arrival) order and merged in that
order. -/
theorem claim_C3_output_depends_on_completion_order :
    diskRead (download_file_in_chunks envCompletionRev "u" "out" 2 []).2.2 "out"
      = some [20, 10] ∧
    diskRead (download_file_in_chunks envCompletionFwd "u" "out" 2 []).2.2 "out"
      = some [10, 20] ∧
    envCompletionRev.chunkResp = envCompletionFwd.chunkResp := by
  refine ⟨by decide, by decide, rfl⟩

/-- Claim C4 counterexample: planning `total_size = 5` into `10` chunks was
claimed to fail with an `InvalidConfiguration` error before any network
activity; instead the code returns a list of 10 degenerate ranges `(0, -1)`
and the whole download proceeds and succeeds (after a HEAD request and ten
GETs). -/
theorem claim_C4_counterexample :
    ranges 5 10 = List.replicate 10 ((0 : Int), (-1 : Int)) ∧
    (download_file_in_chunks envTenChunks "u" "o" 10 []).1 = Except.ok () := by
  exact ⟨by decide, rfl⟩

/-- Claim C4 as amended: when `num_chunks` exceeds `total_size` the code does
not fail; the planning expression silently returns `num_chunks` copies of the
degenerate range `(0, -1)`. -/
theorem claim_C4_amended_degenerate_ranges (total n : Nat) (h : total < n) :
    ranges total n = List.replicate n ((0 : Int), (-1 : Int)) :=
  ranges_degenerate total n h

/-- Witness for the amended claim C4 at `total_size = 5`, `num_chunks = 10`. -/
theorem claim_C4_amended_witness :
    5 < 10 ∧ ranges 5 10 = List.replicate 10 ((0 : Int), (-1 : Int)) :=
  ⟨by decide, claim_C4_amended_degenerate_ranges 5 10 (by decide)⟩

/-- Claim C5 counterexample: with two chunks where chunk 0 succeeds (body
`[10]`) and chunk 1 fails, the claim said no scratch artifact of the
successful chunks remains on disk; in fact the run raises chunk 1's error
and leaves no final output file, but chunk 0's scratch file `out.part0`
remains with its body. -/
theorem claim_C5_counterexample :
    (download_file_in_chunks envChunkOneFails "u" "out" 2 []).1
      = Except.error (DownloadError.chunkError 1) ∧
    diskRead (download_file_in_chunks envChunkOneFails "u" "out" 2 []).2.2 "out"
      = none ∧
    diskRead (download_file_in_chunks envChunkOneFails "u" "out" 2 []).2.2
      (temp_file_path "out" 0) = some [10] := by
  exact ⟨rfl, by decide, by decide⟩

/-- Claim C5 as amended: if any chunk fetch fails while others succeed, the
operation raises that chunk's error and no final output file is created at
the output path (on an initially empty disk), but no cleanup is performed:
the scratch artifact of every successful chunk remains on disk with the
fetched bytes. -/
theorem claim_C5_amended_no_cleanup (env : Env) (url s : String) (t : Int)
    (total : Nat) (ht : 0 < t) (hcl : env.contentLength = some total)
    (hfail : ∃ i ∈ env.completionOrder, env.chunkResp i = none) :
    (∃ j ∈ env.completionOrder,
      (download_file_in_chunks env url s t []).1
        = Except.error (DownloadError.chunkError j) ∧ env.chunkResp j = none) ∧
    diskRead (download_file_in_chunks env url s t []).2.2 s = none ∧
    (∀ k, k < t.toNat → ∀ r, env.chunkResp k = some r →
      diskRead (download_file_in_chunks env url s t []).2.2 (temp_file_path s k)
        = some r.body) := by
  obtain ⟨j, hj1, hj2, hj3⟩ :=
    collectLoop_first_failure s env.chunkResp env.completionOrder [] hfail
  have hneg : ¬ t ≤ 0 := by omega
  simp only [download_file_in_chunks, if_neg hneg, hcl, hj2]
  refine ⟨⟨j, hj1, rfl, hj3⟩, ?_, ?_⟩
  · rw [runChunks, runChunksFrom_read_ne env url s s _ 0 []
      (fun i _ _ => temp_file_path_ne_save s i)]
    rfl
  · intro k hk r hr
    exact runChunksFrom_read_success env url s (ranges total t.toNat) 0 [] k r
      (by omega) (by rw [Nat.zero_add, ranges_length]; exact hk) hr

/-- Witness for the amended claim C5 on the concrete failing two-chunk job. -/
theorem claim_C5_amended_witness :
    (0 : Int) < 2 ∧ envChunkOneFails.contentLength = some 2 ∧
    (∃ i ∈ envChunkOneFails.completionOrder,
      envChunkOneFails.chunkResp i = none) ∧
    ((∃ j ∈ envChunkOneFails.completionOrder,
      (download_file_in_chunks envChunkOneFails "u" "out" 2 []).1
        = Except.error (DownloadError.chunkError j) ∧
      envChunkOneFails.chunkResp j = none) ∧
    diskRead (download_file_in_chunks envChunkOneFails "u" "out" 2 []).2.2 "out"
      = none ∧
    (∀ k, k < (2 : Int).toNat → ∀ r, envChunkOneFails.chunkResp k = some r →
      diskRead (download_file_in_chunks envChunkOneFails "u" "out" 2 []).2.2
        (temp_file_path "out" k) = some r.body)) :=
  ⟨by decide, rfl, by decide,
    claim_C5_amended_no_cleanup envChunkOneFails "u" "out" 2 2
      (by decide) rfl (by decide)⟩

/-- Claim C6 counterexample: a chunk fetch receiving status `200` (not a
partial-content status) with an empty body for the 10-byte range `0–9` was
claimed to fail; instead `download_chunk` returns success with the scratch
path. -/
theorem claim_C6_counterexample :
    (download_chunk "u" "out" 0 9 0 (some (HttpResponse.mk 200 [])) []).2.2
      = Except.ok (temp_file_path "out" 0) := rfl

/-- Claim C6 as amended: a single chunk fetch fails only when the transport
raises; it performs no status-code and no body-length validation, returning
success and writing whatever body was received — of any status and any
length — to the scratch file, and it issues exactly one request (no
retry). -/
theorem claim_C6_amended_no_validation (url s : String) (a b : Int) (i : Nat)
    (r : HttpResponse) (d : Disk) :
    (download_chunk url s a b i (some r) d).1 = [NetOp.get url a b] ∧
    (download_chunk url s a b i (some r) d).2.2
      = Except.ok (temp_file_path s i) ∧
    diskRead (download_chunk url s a b i (some r) d).2.1 (temp_file_path s i)
      = some r.body ∧
    (download_chunk url s a b i none d).1 = [NetOp.get url a b] ∧
    (download_chunk url s a b i none d).2.2 = Except.error () := by
  refine ⟨rfl, rfl, ?_, rfl, rfl⟩
  exact diskRead_write_self d (temp_file_path s i) r.body

/-- Claim C7: with non-positive `num_threads` the download fails immediately
with the `ValueError` of line 76 — before any network request (empty trace)
and before creating or touching any file (the disk is unchanged). -/
theorem claim_C7_nonpositive_threads (env : Env) (url s : String) (t : Int)
    (d : Disk) (h : t ≤ 0) :
    download_file_in_chunks env url s t d
      = (Except.error DownloadError.valueError, [], d) := by
  rw [download_file_in_chunks, if_pos h]

/-- Witness for claim C7 at `num_threads = 0`. -/
theorem claim_C7_witness :
    (0 : Int) ≤ 0 ∧
    download_file_in_chunks envNone "u" "o" 0 []
      = (Except.error DownloadError.valueError, [], []) :=
  ⟨le_refl 0, claim_C7_nonpositive_threads envNone "u" "o" 0 [] (le_refl 0)⟩

/-- Claim C8: when the HEAD response carries no `Content-Length`, the
download fails (the `KeyError` of line 80 models the missing-size failure)
after only the HEAD request — no range is consumed, no chunk fetch is
dispatched, and the disk is unchanged. -/
theorem claim_C8_missing_content_length (env : Env) (url s : String) (t : Int)
    (d : Disk) (ht : 0 < t) (hcl : env.contentLength = none) :
    download_file_in_chunks env url s t d
      = (Except.error DownloadError.keyError, [NetOp.head url], d) := by
  have hneg : ¬ t ≤ 0 := by omega
  simp only [download_file_in_chunks, if_neg hneg, hcl]

/-- Witness for claim C8 on an environment without `Content-Length`. -/
theorem claim_C8_witness :
    (0 : Int) < 1 ∧ envNone.contentLength = none ∧
    download_file_in_chunks envNone "u" "o" 1 []
      = (Except.error DownloadError.keyError, [NetOp.head "u"], []) :=
  ⟨by decide, rfl,
    claim_C8_missing_content_length envNone "u" "o" 1 [] (by decide) rfl⟩

/-- Claim C9: the scratch artifact of chunk `i` is named exactly
`<save_path>.part<i>` — a function of the output path and the index alone —
and distinct indices of the same job get distinct scratch paths. -/
theorem claim_C9_scratch_naming (s : String) (i j : Nat) (hij : i ≠ j) :
    temp_file_path s i = s ++ ".part" ++ toString i ∧
    temp_file_path s i ≠ temp_file_path s j :=
  ⟨rfl, fun hc => hij (temp_file_path_inj s i j hc)⟩

/-- Witness for claim C9 at indices 0 and 1. -/
theorem claim_C9_witness :
    (0 : Nat) ≠ 1 ∧
    (temp_file_path "out" 0 = "out" ++ ".part" ++ toString 0 ∧
      temp_file_path "out" 0 ≠ temp_file_path "out" 1) :=
  ⟨by decide, claim_C9_scratch_naming "out" 0 1 (by decide)⟩

/-- Claim C10: for `num_threads ≥ 1` with `total_size / num_threads ≥ 1`,
the planned ranges start at 0 and are consecutive (each start is the
previous end plus one), but their union is exactly
`[0, num_threads * (total_size / num_threads) - 1]`: the final
`total_size % num_threads` bytes of the file are covered by no range. -/
theorem claim_C10_ranges_drop_tail (total n : Nat) (hn : 1 ≤ n)
    (hcs : 1 ≤ chunk_size total n) : rangesCoverage total n := by
  refine ⟨ranges_length total n, ?_, ?_, covered_ranges_iff total n hcs, ?_, ?_⟩
  · rw [ranges_getElem total n 0 (by omega)]
    simp
  · intro i hi
    refine ⟨_, _, ranges_getElem total n i (by omega),
      ranges_getElem total n (i + 1) hi, ?_⟩
    push_cast
    ring
  · intro b hb hc
    rcases (covered_ranges_iff total n hcs b).mp hc with ⟨h0, hup⟩
    linarith
  · rw [chunk_size]
    have hdm := Nat.div_add_mod total n
    have hdm2 : (n : Int) * ((total / n : Nat) : Int) + ((total % n : Nat) : Int)
        = (total : Int) := by exact_mod_cast hdm
    linarith

/-- Witness for claim C10 at `total_size = 10`, `num_threads = 3`. -/
theorem claim_C10_witness :
    1 ≤ 3 ∧ 1 ≤ chunk_size 10 3 ∧ rangesCoverage 10 3 :=
  ⟨by decide, by decide, claim_C10_ranges_drop_tail 10 3 (by decide) (by decide)⟩

end MTFD
